import Mathlib

/-!
Shallow embedding of the YIT-GPA-Calculator core (the modules reachable from
`main.rs`: `business.rs`, `scraping.rs`, `handler.rs`, `models.rs`).

`rust_decimal::Decimal` is modelled as `ℚ`: all values arising here (parsed
scores, credits, grade points, their products and 2-dp roundings) are exactly
representable, `Decimal`'s `==`, `<`, `+`, `*` agree with the rational
operations on this domain, and `round_dp(2)` defaults to banker's rounding
(midpoint-nearest-even), which `round_2decimal` below implements exactly.
-/

namespace YIT

/-- One course row, mirroring `models.rs::Course`
(`name`, `nature`, `score`, `credit`, `grade`, `credit_gpa`). -/
structure Course where
  name : String
  nature : String
  score : String
  credit : ℚ
  grade : ℚ
  credit_gpa : ℚ
deriving DecidableEq, Repr

/-- The error taxonomy of `models.rs::WebScrapingError`. -/
inductive WebScrapingError where
  | HttpRequest (msg : String)
  | CookieInvalid
  | LoginFailed
  | ParseError (msg : String)
deriving DecidableEq, Repr

/-- Nearest integer with ties to even (banker's rounding), the default
midpoint strategy of `rust_decimal`'s `round_dp`. -/
def roundHalfEven (x : ℚ) : ℤ :=
  let n : ℤ := Int.fdiv x.num x.den
  let f : ℚ := x - (n : ℚ)
  if f < 1/2 then n
  else if 1/2 < f then n + 1
  else if n % 2 = 0 then n else n + 1

/-- `business.rs::round_2decimal`: `d.round_dp(2)`. -/
def round_2decimal (d : ℚ) : ℚ :=
  ((roundHalfEven (d * 100) : ℤ) : ℚ) / 100

/-- Rust's `str::trim`, modelled on the character list (drops leading and
trailing whitespace). -/
def strTrim (s : String) : String :=
  ⟨((s.data.dropWhile Char.isWhitespace).reverse.dropWhile Char.isWhitespace).reverse⟩

/-- Boolean test that `pat` occurs at the head of `l`. -/
def headMatches : List Char → List Char → Bool
  | [], _ => true
  | _ :: _, [] => false
  | a :: as, b :: bs => a = b && headMatches as bs

/-- Boolean test that `pat` occurs contiguously somewhere in `l`. -/
def occursIn (pat l : List Char) : Bool :=
  match l with
  | [] => headMatches pat []
  | _ :: rest => headMatches pat l || occursIn pat rest

/-- Rust's `str::contains(pat)` substring test. -/
def strContains (s pat : String) : Bool :=
  occursIn pat.data s.data

/-- Helper for `parseDecimal`: consume digits, at most one decimal point and
digit-separating underscores, tracking the accumulated integer value `acc`,
the number of fractional digits `scale`, whether a point was seen and whether
at least one digit was seen. -/
def parseDecimalAux : List Char → ℕ → ℕ → Bool → Bool → Option ℚ
  | [], acc, scale, _, seenDigit =>
      if seenDigit then some ((acc : ℚ) / (10 ^ scale : ℕ)) else none
  | c :: rest, acc, scale, seenDot, seenDigit =>
      if c = '_' then parseDecimalAux rest acc scale seenDot seenDigit
      else if c = '.' then
        if seenDot then none else parseDecimalAux rest acc scale true seenDigit
      else if c.isDigit then
        parseDecimalAux rest (acc * 10 + (c.toNat - 48))
          (if seenDot then scale + 1 else scale) seenDot true
      else none

/-- The external `str::parse::<rust_decimal::Decimal>()`: an optional sign
followed by decimal digits with at most one point; anything else (including
the empty string and the pass/fail labels) fails.  The 96-bit mantissa
overflow of `Decimal` is not modelled: no input in the program's domain
(scores and credits) comes near it. -/
def parseDecimal (s : String) : Option ℚ :=
  match s.data with
  | '-' :: rest => (parseDecimalAux rest 0 0 false false).map (fun q => -q)
  | '+' :: rest => parseDecimalAux rest 0 0 false false
  | l => parseDecimalAux l 0 0 false false

/-- The numeric band table of `business.rs::score_trans_grade`
(lines 76–90): twelve bands with upper-exclusive edges, the final band
upper-inclusive at 100; above 100 the result is `None`. -/
def gradeBands (s : ℚ) : Option ℚ :=
  if s < 60 then some 0
  else if s < 64 then some 1.33
  else if s < 67 then some 1.67
  else if s < 70 then some 2.00
  else if s < 74 then some 2.33
  else if s < 77 then some 2.67
  else if s < 80 then some 3.00
  else if s < 83 then some 3.33
  else if s < 87 then some 3.67
  else if s < 90 then some 4.00
  else if s < 95 then some 4.33
  else if s ≤ 100 then some 4.67
  else none

/-- `business.rs::score_trans_grade`: exact label match first, then decimal
parsing, then the numeric band table. -/
def score_trans_grade (score : String) : Option ℚ :=
  if score = "不及格" ∨ score = "不合格" then some 0
  else if score = "及格" ∨ score = "合格" then some 1
  else if score = "中" then some 2.33
  else if score = "良" then some 3.33
  else if score = "优" then some 4.33
  else
    match parseDecimal score with
    | none => none
    | some v => gradeBands v

/-- `business.rs::PERMANENT_IGNORED_COURSES`. -/
def PERMANENT_IGNORED_COURSES : List String := ["入学教育"]

/-- `business.rs::NATURE_EXCLUSIONS`. -/
def NATURE_EXCLUSIONS : List String := ["公共选修课", "通识教育选修"]

/-- `business.rs::EXCLUDED_COURSES_KEYWORD`. -/
def EXCLUDED_COURSES_KEYWORD : List String := [
  "体育", "职业生涯规划与就业指导", "大学生安全教育", "大学生心理健康教育",
  "形势与政策", "军事理论", "军事训练", "军事技能", "创新创业教育",
  "劳动教育", "专业基础认知", "毕业教育", "社会实践", "社会调研",
  "综合实训", "综合设计与展示", "职场体验", "实习", "见习",
  "名师大讲堂", "领导力", "系列讲座"]

/-- `business.rs::GPAMode`. -/
inductive GPAMode where
  | Default
  | All
deriving DecidableEq, Repr

/-- `business.rs::ResultSource`. -/
inductive ResultSource where
  | OfficialWebsite
  | InputFile
deriving DecidableEq, Repr

/-- `business.rs::GPAResult`. -/
structure GPAResult where
  gpa : ℚ
  courses : List Course
deriving DecidableEq, Repr

/-- `business.rs::ProcessedGPAResults` (field `default` may be absent). -/
structure ProcessedGPAResults where
  dflt : Option GPAResult
  all : GPAResult
deriving DecidableEq, Repr

/-- `business.rs::calculate_gpa_from_list` (lines 109–136): drop the
permanently ignored names, apply the mode filter, sum credits and weighted
points, and divide (guarded by `total_credits > 0`). -/
def calculate_gpa_from_list (courses : List Course) (mode : GPAMode) :
    ℚ × List Course :=
  let remaining := courses.filter
    (fun c => !(PERMANENT_IGNORED_COURSES.contains c.name))
  let courses_to_use :=
    match mode with
    | GPAMode.Default => remaining.filter
        (fun c => !(EXCLUDED_COURSES_KEYWORD.any (fun k => strContains c.name k))
          && !(NATURE_EXCLUSIONS.contains c.nature))
    | GPAMode.All => remaining
  let total_credits : ℚ := (courses_to_use.map (fun c => c.credit)).sum
  let total_cg : ℚ := (courses_to_use.map (fun c => c.credit_gpa)).sum
  let gpa := if 0 < total_credits then round_2decimal (total_cg / total_credits)
    else 0
  (gpa, courses_to_use)

/-- `business.rs::process_scraped_course_results` (lines 138–160). -/
def process_scraped_course_results (courses : List Course)
    (source : ResultSource) : ProcessedGPAResults :=
  let all_result :=
    let p := calculate_gpa_from_list courses GPAMode.All
    GPAResult.mk p.1 p.2
  let default_result :=
    match source with
    | ResultSource.OfficialWebsite =>
        let p := calculate_gpa_from_list courses GPAMode.Default
        some (GPAResult.mk p.1 p.2)
    | ResultSource.InputFile => none
  ProcessedGPAResults.mk default_result all_result

/-- The login failure marker of `scraping.rs::login` (line 152): the login
endpoint echoes its own URL in the body on bad credentials. -/
def login_failure_indicator : String := "/yjlgxy_jsxsd/xk/LoginToXk"

/-- The decision logic of `scraping.rs::login` (lines 139–155), given the
success bit of the HTTP status and the response body text: non-success status
is a transport error, a body containing the failure marker is `LoginFailed`,
otherwise the login succeeds.  (The subsequent `Referer`/`X-Requested-With`
header updates are state mutations outside this decision and cannot fail on a
resolved URL.) -/
def loginOutcome (status_is_success : Bool) (response_text : String) :
    Except WebScrapingError Unit :=
  if !status_is_success then
    Except.error (WebScrapingError.HttpRequest "登录失败，请检查账号和密码是否正确。")
  else if strContains response_text login_failure_indicator then
    Except.error WebScrapingError.LoginFailed
  else Except.ok ()

/-- The per-row body of the loop in `scraping.rs::get_grades`
(lines 217–255): rows with fewer than 12 cells are skipped; the trimmed name
(cell 3), score (cell 4), nature (cell 11) and credit (cell 6) are
extracted; a failing credit parse or a failing grade conversion skips the
row; otherwise one `Course` is built with
`credit_gpa = round_2decimal(grade_point * credit)`. -/
def processRow (tds : List String) : Option Course :=
  if tds.length < 12 then none
  else
    let name := strTrim (tds.getD 3 "")
    let score_text := strTrim (tds.getD 4 "")
    let nature := strTrim (tds.getD 11 "")
    let credit_text := strTrim (tds.getD 6 "")
    match parseDecimal credit_text with
    | none => none
    | some credit =>
      match score_trans_grade score_text with
      | none => none
      | some grade_point =>
        some (Course.mk name nature score_text credit grade_point
          (round_2decimal (grade_point * credit)))

/-- The `HashMap` update of `scraping.rs::get_grades` (lines 256–262),
modelled on an association list keyed by course name: an existing entry for
the name is replaced only when the new grade is strictly higher; a fresh name
is inserted. -/
def insertCourse : List (String × Course) → Course → List (String × Course)
  | [], c => [(c.name, c)]
  | (k, e) :: rest, c =>
    if k = c.name then
      (if e.grade < c.grade then (k, c) else (k, e)) :: rest
    else (k, e) :: insertCourse rest c

/-- Fold a course list into the deduplicating name-keyed map. -/
def dedupCourses (l : List Course) : List (String × Course) :=
  l.foldl insertCourse []

/-- The parsing/deduplication pipeline of `scraping.rs::get_grades`
(lines 214–275): skip the header row, fold every remaining row through
`processRow` and the dedup map, and return the map's values. -/
def get_grades (trs : List (List String)) : List Course :=
  ((trs.drop 1).foldl
    (fun m tr =>
      match processRow tr with
      | none => m
      | some c => insertCourse m c) []).map Prod.snd

/-- The per-row body of the spreadsheet loop in `handler.rs::score_from_file`
(lines 150–169): name (cell 0), credit (cell 1), score (cell 2), all
trimmed; a row whose name, credit or score text is empty is skipped, as is a
row whose credit fails to parse or whose score fails grade conversion. -/
def processFileRow (row : List String) : Option Course :=
  let name := strTrim (row.getD 0 "")
  let credit_str := strTrim (row.getD 1 "")
  let score_str := strTrim (row.getD 2 "")
  if name = "" ∨ credit_str = "" ∨ score_str = "" then none
  else
    match parseDecimal credit_str with
    | none => none
    | some credit =>
      match score_trans_grade score_str with
      | none => none
      | some grade =>
        some (Course.mk name "" score_str credit grade
          (round_2decimal (grade * credit)))

/-- The course list built by `handler.rs::score_from_file` from the rows of
`Sheet1` (the first three rows are headers and are skipped; surviving rows
are kept in order, without deduplication). -/
def score_from_file_rows (rows : List (List String)) : List Course :=
  (rows.drop 3).filterMap processFileRow

/-- The invariant of §3 of the spec: the weighted point of a course is the
rounded product of its credit and grade point. -/
def courseInv (c : Course) : Prop :=
  c.credit_gpa = round_2decimal (c.credit * c.grade)

/-- Modelled from the spec: the exact-label table of §4.3, step 1
("fail→0.00, pass→1.00, 中→2.33, 良→3.33, 优→4.33", case-sensitive,
source-locale labels), used to state that `score_trans_grade` tries labels
before numbers. -/
def specLabelTable (s : String) : Option ℚ :=
  if s = "不及格" ∨ s = "不合格" then some 0
  else if s = "及格" ∨ s = "合格" then some 1
  else if s = "中" then some 2.33
  else if s = "良" then some 3.33
  else if s = "优" then some 4.33
  else none

/-- Pick the better of an existing attempt and a new one: the new course only
when its grade is strictly higher (ties keep the existing, i.e. first-seen). -/
def betterOf (e c : Course) : Course :=
  if e.grade < c.grade then c else e

/-- The surviving attempt among a list of same-name attempts: the first one,
improved left-to-right by strictly better grades. -/
def keepBest : List Course → Option Course
  | [] => none
  | c :: rest => some (rest.foldl betterOf c)

/-- Name-keyed lookup in the dedup map. -/
def lookupName (n : String) : List (String × Course) → Option Course
  | [] => none
  | (k, c) :: rest => if k = n then some c else lookupName n rest

/-- Proof device for the band table: evaluate a chain of
(upper-exclusive bound, value) pairs, falling through to `dflt`.  Proven
equal to `gradeBands` on `[0, 100]` below; the claim theorems themselves are
stated about `gradeBands`. -/
def chainEval : List (ℚ × ℚ) → ℚ → ℚ → ℚ
  | [], dflt, _ => dflt
  | (b, v) :: rest, dflt, q => if q < b then v else chainEval rest dflt q

/-- The (bound, value) pairs of the band table of `score_trans_grade`, in
source order. -/
def thresholdPairs : List (ℚ × ℚ) :=
  [(60, 0), (64, 1.33), (67, 1.67), (70, 2.00), (74, 2.33), (77, 2.67),
   (80, 3.00), (83, 3.33), (87, 3.67), (90, 4.00), (95, 4.33)]

section Proofs

/-- A string that parses as a decimal is none of the five label match arms,
so `score_trans_grade` falls through to the numeric band table. -/
theorem score_trans_grade_of_parse {s : String} {q : ℚ}
    (h : parseDecimal s = some q) : score_trans_grade s = gradeBands q := by
  unfold score_trans_grade
  have h1 : ¬(s = "不及格" ∨ s = "不合格") := by
    rintro (rfl | rfl)
    · rw [(by decide : parseDecimal "不及格" = none)] at h; exact Option.noConfusion h
    · rw [(by decide : parseDecimal "不合格" = none)] at h; exact Option.noConfusion h
  have h2 : ¬(s = "及格" ∨ s = "合格") := by
    rintro (rfl | rfl)
    · rw [(by decide : parseDecimal "及格" = none)] at h; exact Option.noConfusion h
    · rw [(by decide : parseDecimal "合格" = none)] at h; exact Option.noConfusion h
  have h3 : s ≠ "中" := by
    rintro rfl
    rw [(by decide : parseDecimal "中" = none)] at h; exact Option.noConfusion h
  have h4 : s ≠ "良" := by
    rintro rfl
    rw [(by decide : parseDecimal "良" = none)] at h; exact Option.noConfusion h
  have h5 : s ≠ "优" := by
    rintro rfl
    rw [(by decide : parseDecimal "优" = none)] at h; exact Option.noConfusion h
  rw [if_neg h1, if_neg h2, if_neg h3, if_neg h4, if_neg h5, h]

/-- Above 100 every band test fails, so the band table is empty there. -/
theorem gradeBands_none_of_gt_100 {q : ℚ} (h : 100 < q) : gradeBands q = none := by
  unfold gradeBands
  rw [if_neg (by linarith : ¬q < 60), if_neg (by linarith : ¬q < 64),
    if_neg (by linarith : ¬q < 67), if_neg (by linarith : ¬q < 70),
    if_neg (by linarith : ¬q < 74), if_neg (by linarith : ¬q < 77),
    if_neg (by linarith : ¬q < 80), if_neg (by linarith : ¬q < 83),
    if_neg (by linarith : ¬q < 87), if_neg (by linarith : ¬q < 90),
    if_neg (by linarith : ¬q < 95), if_neg (by linarith : ¬q ≤ 100)]

/-- Negative scores land in the bottom band (`s < 60`). -/
theorem gradeBands_neg {q : ℚ} (h : q < 0) : gradeBands q = some 0 := by
  unfold gradeBands
  rw [if_pos (by linarith)]

/-- The course list returned in Default mode is the keyword/nature filter
applied after the permanent-ignore filter. -/
theorem calc_courses_default (courses : List Course) :
    (calculate_gpa_from_list courses GPAMode.Default).2 =
      (courses.filter (fun c => !(PERMANENT_IGNORED_COURSES.contains c.name))).filter
        (fun c => !(EXCLUDED_COURSES_KEYWORD.any (fun k => strContains c.name k))
          && !(NATURE_EXCLUSIONS.contains c.nature)) := rfl

/-- The course list returned in All mode is just the permanent-ignore filter. -/
theorem calc_courses_all (courses : List Course) :
    (calculate_gpa_from_list courses GPAMode.All).2 =
      courses.filter (fun c => !(PERMANENT_IGNORED_COURSES.contains c.name)) := rfl

/-- Every course surviving `calculate_gpa_from_list` comes from the input. -/
theorem calc_mem_sub {courses : List Course} {mode : GPAMode} {c : Course}
    (h : c ∈ (calculate_gpa_from_list courses mode).2) : c ∈ courses := by
  cases mode with
  | Default =>
    rw [calc_courses_default] at h
    exact List.mem_of_mem_filter (List.mem_of_mem_filter h)
  | All =>
    rw [calc_courses_all] at h
    exact List.mem_of_mem_filter h

/-- The returned gpa is the guarded rounded quotient over the returned list. -/
theorem calc_fst (courses : List Course) (mode : GPAMode) :
    (calculate_gpa_from_list courses mode).1 =
      if 0 < ((calculate_gpa_from_list courses mode).2.map (fun c => c.credit)).sum
      then round_2decimal
        ((((calculate_gpa_from_list courses mode).2.map (fun c => c.credit_gpa)).sum) /
          (((calculate_gpa_from_list courses mode).2.map (fun c => c.credit)).sum))
      else 0 := by
  cases mode <;> rfl

/-- The result of a chain evaluation is one of the listed values or the
fall-through value. -/
theorem chainEval_mem : ∀ (ps : List (ℚ × ℚ)) (dflt q : ℚ),
    chainEval ps dflt q ∈ ps.map Prod.snd ++ [dflt] := by
  intro ps
  induction ps with
  | nil => intro dflt q; simp [chainEval]
  | cons p rest ih =>
    intro dflt q
    obtain ⟨b, v⟩ := p
    unfold chainEval
    by_cases h : q < b
    · rw [if_pos h]; simp
    · rw [if_neg h]
      have := ih dflt q
      simp only [List.map_cons, List.cons_append, List.mem_cons]
      exact Or.inr (by simpa using this)

/-- Chain evaluation is monotone in the query when the listed values
followed by the fall-through value are non-decreasing. -/
theorem chainEval_mono : ∀ (ps : List (ℚ × ℚ)) (dflt q1 q2 : ℚ),
    q1 ≤ q2 → (ps.map Prod.snd ++ [dflt]).Pairwise (fun a b => a ≤ b) →
    chainEval ps dflt q1 ≤ chainEval ps dflt q2 := by
  intro ps
  induction ps with
  | nil => intro dflt q1 q2 _ _; exact le_refl _
  | cons p rest ih =>
    intro dflt q1 q2 h12 hsort
    obtain ⟨b, v⟩ := p
    simp only [List.map_cons, List.cons_append, List.pairwise_cons] at hsort
    obtain ⟨hv, hrest⟩ := hsort
    unfold chainEval
    by_cases h2 : q2 < b
    · rw [if_pos h2, if_pos (lt_of_le_of_lt h12 h2)]
    · rw [if_neg h2]
      by_cases h1 : q1 < b
      · rw [if_pos h1]
        exact hv _ (by simpa using chainEval_mem rest dflt q2)
      · rw [if_neg h1]
        exact ih dflt q1 q2 h12 hrest

/-- On `[0, 100]` the band table agrees with the chain evaluation of
`thresholdPairs` with fall-through `4.67`. -/
theorem gradeBands_eq_chainEval {q : ℚ} (h : q ≤ 100) :
    gradeBands q = some (chainEval thresholdPairs 4.67 q) := by
  unfold gradeBands
  simp only [thresholdPairs, chainEval, apply_ite Option.some]
  rw [if_pos h]

/-- C1 (amended): a parsed numeric score above 100 converts to `None`, but a
parsed negative score falls into the bottom band and converts to
`Some 0.00`, not `None`: only the upper bound of `[0, 100]` is enforced. -/
theorem c1_out_of_range :
    ∀ (s : String) (q : ℚ), parseDecimal s = some q →
      (100 < q → score_trans_grade s = none)
      ∧ (q < 0 → score_trans_grade s = some 0) := by
  intro s q hp
  constructor
  · intro hq
    rw [score_trans_grade_of_parse hp]
    exact gradeBands_none_of_gt_100 hq
  · intro hq
    rw [score_trans_grade_of_parse hp]
    exact gradeBands_neg hq

/-- C3 (part): `score_trans_grade` returns the label value whenever the
label table matches, and otherwise is exactly decimal parsing followed by
the band table. -/
theorem score_label_first :
    (∀ (s : String) (v : ℚ), specLabelTable s = some v → score_trans_grade s = some v)
    ∧ ∀ s : String, specLabelTable s = none →
        score_trans_grade s = (parseDecimal s).bind gradeBands := by
  constructor
  · intro s v h
    unfold specLabelTable at h
    unfold score_trans_grade
    split_ifs at h ⊢ <;> exact h
  · intro s h
    unfold specLabelTable at h
    unfold score_trans_grade
    split_ifs at h ⊢
    cases parseDecimal s <;> rfl

/-- C5: after a success HTTP status, a response body containing the
login-endpoint URL marker makes `login` fail with `LoginFailed` (and with
the marker present no status can make it succeed), while a marker-free body
makes it succeed. -/
theorem c5_login_marker :
    ∀ body : String,
      (strContains body login_failure_indicator = true →
        loginOutcome true body = Except.error WebScrapingError.LoginFailed
          ∧ ∀ st : Bool, loginOutcome st body ≠ Except.ok ())
      ∧ (strContains body login_failure_indicator = false →
        loginOutcome true body = Except.ok ()) := by
  intro body
  constructor
  · intro h
    constructor
    · simp [loginOutcome, h]
    · intro st hok
      cases st <;> simp [loginOutcome, h] at hok
  · intro h
    simp [loginOutcome, h]

/-- C7 (amended): the gpa is the rounded quotient of summed weighted points
by summed credits when the summed credit of the surviving set is strictly
positive; otherwise (zero total — in particular the empty set — or a
negative total) the division branch is not taken and the gpa is `0`. -/
theorem c7_gpa_formula :
    ∀ (courses : List Course) (mode : GPAMode),
      (0 < ((calculate_gpa_from_list courses mode).2.map (fun c => c.credit)).sum →
        (calculate_gpa_from_list courses mode).1 =
          round_2decimal
            ((((calculate_gpa_from_list courses mode).2.map (fun c => c.credit_gpa)).sum) /
              (((calculate_gpa_from_list courses mode).2.map (fun c => c.credit)).sum)))
      ∧ (¬0 < ((calculate_gpa_from_list courses mode).2.map (fun c => c.credit)).sum →
        (calculate_gpa_from_list courses mode).1 = 0) := by
  intro courses mode
  rw [calc_fst]
  constructor
  · intro h; rw [if_pos h]
  · intro h; rw [if_neg h]

/-- C8: every course surviving the Default-mode filter also survives the
All-mode filter on the same input (the Default filter is a further
restriction of the shared permanent-ignore filter). -/
theorem c8_default_subset_all :
    ∀ (courses : List Course) (c : Course),
      c ∈ (calculate_gpa_from_list courses GPAMode.Default).2 →
      c ∈ (calculate_gpa_from_list courses GPAMode.All).2 := by
  intro courses c h
  rw [calc_courses_default] at h
  rw [calc_courses_all]
  exact List.mem_of_mem_filter h

/-- C10: both result lists of `process_scraped_course_results` only select
input records; no field of a selected record is modified. -/
theorem c10_frame :
    ∀ (courses : List Course) (source : ResultSource),
      (∀ c ∈ (process_scraped_course_results courses source).all.courses, c ∈ courses)
      ∧ (∀ r : GPAResult, (process_scraped_course_results courses source).dflt = some r →
          ∀ c ∈ r.courses, c ∈ courses) := by
  intro courses source
  constructor
  · intro c hc
    exact @calc_mem_sub courses GPAMode.All c hc
  · intro r hr c hc
    cases source with
    | OfficialWebsite =>
      have hr' : some (GPAResult.mk (calculate_gpa_from_list courses GPAMode.Default).1
          (calculate_gpa_from_list courses GPAMode.Default).2) = some r := hr
      obtain rfl := Option.some.inj hr'
      exact @calc_mem_sub courses GPAMode.Default c hc
    | InputFile =>
      have hnone : (none : Option GPAResult) = some r := hr
      exact Option.noConfusion hnone

/-- C2 (amended): a post-header row with at least 12 cells is skipped iff
its trimmed credit text fails decimal parsing (the empty text does) or its
trimmed score text fails grade conversion (the empty text does); the name is
not examined (an empty name is kept) and a negative credit is accepted;
every non-skipped row yields exactly the one `Course` built from its
cells. -/
theorem c2_row_processing :
    ∀ tds : List String, ¬tds.length < 12 →
      (parseDecimal (strTrim (tds.getD 6 "")) = none → processRow tds = none)
      ∧ (score_trans_grade (strTrim (tds.getD 4 "")) = none → processRow tds = none)
      ∧ (∀ credit grade : ℚ,
          parseDecimal (strTrim (tds.getD 6 "")) = some credit →
          score_trans_grade (strTrim (tds.getD 4 "")) = some grade →
          processRow tds = some (Course.mk (strTrim (tds.getD 3 ""))
            (strTrim (tds.getD 11 "")) (strTrim (tds.getD 4 "")) credit grade
            (round_2decimal (grade * credit)))) := by
  intro tds h
  refine ⟨?_, ?_, ?_⟩
  · intro hc
    simp only [processRow, if_neg h]
    rw [hc]
  · intro hs
    simp only [processRow, if_neg h]
    cases hp : parseDecimal (strTrim (tds.getD 6 "")) with
    | none => rfl
    | some credit => rw [hs]
  · intro credit grade hc hs
    simp only [processRow, if_neg h]
    rw [hc, hs]

/-- A course produced by the scraping row parser satisfies the weighted
point invariant by construction. -/
theorem processRow_inv {tds : List String} {c : Course}
    (h : processRow tds = some c) : courseInv c := by
  simp only [processRow] at h
  by_cases hl : tds.length < 12
  · rw [if_pos hl] at h; exact Option.noConfusion h
  · rw [if_neg hl] at h
    cases hp : parseDecimal (strTrim (tds.getD 6 "")) with
    | none => rw [hp] at h; exact Option.noConfusion h
    | some credit =>
      rw [hp] at h
      cases hs : score_trans_grade (strTrim (tds.getD 4 "")) with
      | none => rw [hs] at h; exact Option.noConfusion h
      | some grade =>
        rw [hs] at h
        obtain rfl := Option.some.inj h
        simp [courseInv, mul_comm]

/-- A course produced by the spreadsheet row parser satisfies the weighted
point invariant by construction. -/
theorem processFileRow_inv {row : List String} {c : Course}
    (h : processFileRow row = some c) : courseInv c := by
  simp only [processFileRow] at h
  by_cases he : strTrim (row.getD 0 "") = "" ∨ strTrim (row.getD 1 "") = ""
      ∨ strTrim (row.getD 2 "") = ""
  · rw [if_pos he] at h; exact Option.noConfusion h
  · rw [if_neg he] at h
    cases hp : parseDecimal (strTrim (row.getD 1 "")) with
    | none => rw [hp] at h; exact Option.noConfusion h
    | some credit =>
      rw [hp] at h
      cases hs : score_trans_grade (strTrim (row.getD 2 "")) with
      | none => rw [hs] at h; exact Option.noConfusion h
      | some grade =>
        rw [hs] at h
        obtain rfl := Option.some.inj h
        simp [courseInv, mul_comm]

/-- A value of the dedup map after one insertion is the inserted course or a
previous value. -/
theorem mem_insertCourse_values {m : List (String × Course)} {c x : Course}
    (h : x ∈ (insertCourse m c).map Prod.snd) : x = c ∨ x ∈ m.map Prod.snd := by
  induction m with
  | nil =>
    simp only [insertCourse, List.map_cons, List.map_nil, List.mem_singleton] at h
    exact Or.inl h
  | cons p rest ih =>
    obtain ⟨k, e⟩ := p
    simp only [insertCourse] at h
    by_cases hk : k = c.name
    · rw [if_pos hk] at h
      by_cases hg : e.grade < c.grade
      · rw [if_pos hg] at h
        simp only [List.map_cons, List.mem_cons] at h
        rcases h with rfl | h
        · exact Or.inl rfl
        · exact Or.inr (by simp only [List.map_cons, List.mem_cons]; exact Or.inr h)
      · rw [if_neg hg] at h
        simp only [List.map_cons, List.mem_cons] at h
        rcases h with rfl | h
        · exact Or.inr (by simp)
        · exact Or.inr (by simp only [List.map_cons, List.mem_cons]; exact Or.inr h)
    · rw [if_neg hk] at h
      simp only [List.map_cons, List.mem_cons] at h
      rcases h with rfl | h
      · exact Or.inr (by simp)
      · rcases ih h with h' | h'
        · exact Or.inl h'
        · exact Or.inr (by simp only [List.map_cons, List.mem_cons]; exact Or.inr h')

/-- A value of the row-parsing fold comes from the accumulator or from a
successfully parsed row. -/
theorem mem_rows_foldl {rows : List (List String)} :
    ∀ {m : List (String × Course)} {x : Course},
      x ∈ ((rows.foldl (fun m tr =>
        match processRow tr with
        | none => m
        | some c => insertCourse m c) m).map Prod.snd) →
      x ∈ m.map Prod.snd ∨ ∃ tr ∈ rows, processRow tr = some x := by
  induction rows with
  | nil => intro m x h; exact Or.inl h
  | cons tr rest ih =>
    intro m x h
    rw [List.foldl_cons] at h
    rcases ih h with h' | ⟨tr', h1, h2⟩
    · cases hp : processRow tr with
      | none =>
        rw [hp] at h'
        exact Or.inl h'
      | some c =>
        rw [hp] at h'
        rcases mem_insertCourse_values h' with rfl | h''
        · exact Or.inr ⟨tr, List.mem_cons_self _ _, hp⟩
        · exact Or.inl h''
    · exact Or.inr ⟨tr', List.mem_cons_of_mem _ h1, h2⟩

/-- Every course returned by the grade extraction comes from a parsed row. -/
theorem mem_get_grades {trs : List (List String)} {x : Course}
    (h : x ∈ get_grades trs) :
    ∃ tr ∈ trs.drop 1, processRow tr = some x := by
  unfold get_grades at h
  rcases mem_rows_foldl h with h' | h'
  · simp at h'
  · exact h'

/-- C6: all three producers respect the weighted point invariant — grade
extraction and file parsing establish it at construction, and the GPA
computation only selects records, so it preserves it. -/
theorem c6_weighted_point_invariant :
    (∀ (trs : List (List String)) (c : Course), c ∈ get_grades trs → courseInv c)
    ∧ (∀ (rows : List (List String)) (c : Course),
        c ∈ score_from_file_rows rows → courseInv c)
    ∧ (∀ (courses : List Course) (mode : GPAMode), (∀ c ∈ courses, courseInv c) →
        ∀ c ∈ (calculate_gpa_from_list courses mode).2, courseInv c) := by
  refine ⟨?_, ?_, ?_⟩
  · intro trs c h
    obtain ⟨tr, _, hp⟩ := mem_get_grades h
    exact processRow_inv hp
  · intro rows c h
    unfold score_from_file_rows at h
    obtain ⟨r, _, hp⟩ := List.mem_filterMap.mp h
    exact processFileRow_inv hp
  · intro courses mode hall c hc
    exact hall c (calc_mem_sub hc)

/-- Lookup after one dedup-map insertion: for the inserted course's name the
entry is the better of the old entry and the new course (or the new course
when the name is fresh); other names are untouched. -/
theorem lookupName_insertCourse (m : List (String × Course)) (c : Course) (n : String) :
    lookupName n (insertCourse m c) =
      if c.name = n then
        match lookupName n m with
        | none => some c
        | some e => some (betterOf e c)
      else lookupName n m := by
  induction m with
  | nil =>
    by_cases h : c.name = n
    · simp [insertCourse, lookupName, h]
    · simp [insertCourse, lookupName, h]
  | cons p rest ih =>
    obtain ⟨k, e⟩ := p
    by_cases hk : k = c.name
    · by_cases hn : c.name = n
      · have hkn : k = n := hk.trans hn
        by_cases hg : e.grade < c.grade
        · simp [insertCourse, lookupName, hk, hn, hkn, hg, betterOf]
        · simp [insertCourse, lookupName, hk, hn, hkn, hg, betterOf]
      · have hkn : ¬k = n := fun hh => hn (hk.symm.trans hh)
        by_cases hg : e.grade < c.grade
        · simp [insertCourse, lookupName, hk, hn, hkn, hg]
        · simp [insertCourse, lookupName, hk, hn, hkn, hg]
    · by_cases hn2 : k = n
      · have hcn : ¬c.name = n := fun hh => hk (hn2.trans hh.symm)
        have hk' : ¬n = c.name := fun hh => hcn hh.symm
        simp [insertCourse, lookupName, hk, hk', hn2, hcn]
      · simp only [insertCourse, if_neg hk]
        simp only [lookupName, if_neg hn2]
        rw [ih]

/-- Lookup after folding a course list into the dedup map, relative to the
starting map. -/
theorem lookupName_foldl (l : List Course) :
    ∀ (m : List (String × Course)) (n : String),
      lookupName n (l.foldl insertCourse m) =
        match lookupName n m with
        | none => keepBest (l.filter (fun c => c.name == n))
        | some e => some ((l.filter (fun c => c.name == n)).foldl betterOf e) := by
  induction l with
  | nil =>
    intro m n
    cases h : lookupName n m <;> simp [keepBest, h]
  | cons c rest ih =>
    intro m n
    rw [List.foldl_cons, ih (insertCourse m c) n, lookupName_insertCourse]
    by_cases hn : c.name = n
    · rw [if_pos hn]
      have hfilter : (c :: rest).filter (fun x => x.name == n)
          = c :: rest.filter (fun x => x.name == n) := by
        simp [List.filter_cons, hn]
      rw [hfilter]
      cases h : lookupName n m with
      | none => simp [keepBest]
      | some e => simp [List.foldl_cons]
    · rw [if_neg hn]
      have hfilter : (c :: rest).filter (fun x => x.name == n)
          = rest.filter (fun x => x.name == n) := by
        simp [List.filter_cons, hn]
      rw [hfilter]

/-- Dedup lookup is the left-to-right best-attempt selection over the
same-name attempts. -/
theorem lookupName_dedup (l : List Course) (n : String) :
    lookupName n (dedupCourses l) = keepBest (l.filter (fun c => c.name == n)) := by
  have h := lookupName_foldl l [] n
  simpa [dedupCourses, lookupName] using h

/-- The left fold of `betterOf` returns a member of the list that carries
the maximal grade and is preceded only by strictly smaller grades. -/
theorem foldl_betterOf_spec :
    ∀ (rest : List Course) (a : Course),
      ∃ l₁ l₂, a :: rest = l₁ ++ (rest.foldl betterOf a) :: l₂
        ∧ (∀ x ∈ a :: rest, x.grade ≤ (rest.foldl betterOf a).grade)
        ∧ (∀ x ∈ l₁, x.grade < (rest.foldl betterOf a).grade) := by
  intro rest
  induction rest with
  | nil =>
    intro a
    exact ⟨[], [], by simp, by simp, by simp⟩
  | cons b rest' ih =>
    intro a
    rw [List.foldl_cons]
    obtain ⟨l₁, l₂, hsplit, hmax, hstrict⟩ := ih (betterOf a b)
    by_cases hg : a.grade < b.grade
    · have hb : betterOf a b = b := by simp [betterOf, hg]
      rw [hb] at hsplit hmax hstrict ⊢
      refine ⟨a :: l₁, l₂, ?_, ?_, ?_⟩
      · rw [List.cons_append, ← hsplit]
      · intro x hx
        rcases List.mem_cons.mp hx with rfl | hx'
        · exact le_of_lt (lt_of_lt_of_le hg (hmax b (List.mem_cons_self _ _)))
        · exact hmax x hx'
      · intro x hx
        rcases List.mem_cons.mp hx with rfl | hx'
        · exact lt_of_lt_of_le hg (hmax b (List.mem_cons_self _ _))
        · exact hstrict x hx'
    · have hb : betterOf a b = a := by simp [betterOf, hg]
      rw [hb] at hsplit hmax hstrict ⊢
      have hba : b.grade ≤ a.grade := le_of_not_lt hg
      have har : a.grade ≤ (rest'.foldl betterOf a).grade :=
        hmax a (List.mem_cons_self _ _)
      cases l₁ with
      | nil =>
        rw [List.nil_append] at hsplit
        injection hsplit with h1 h2
        refine ⟨[], b :: rest', ?_, ?_, by simp⟩
        · rw [List.nil_append]
          exact congrArg (fun z => z :: b :: rest') h1
        · intro x hx
          rcases List.mem_cons.mp hx with rfl | hx'
          · exact har
          · rcases List.mem_cons.mp hx' with rfl | hx''
            · exact le_trans hba har
            · exact hmax x (List.mem_cons_of_mem _ hx'')
      | cons p l₁' =>
        rw [List.cons_append] at hsplit
        injection hsplit with h1 h2
        subst h1
        have hastrict : a.grade < (rest'.foldl betterOf a).grade :=
          hstrict a (List.mem_cons_self _ _)
        refine ⟨a :: b :: l₁', l₂, ?_, ?_, ?_⟩
        · simp only [List.cons_append]
          exact congrArg (fun z => a :: b :: z) h2
        · intro x hx
          rcases List.mem_cons.mp hx with rfl | hx'
          · exact har
          · rcases List.mem_cons.mp hx' with rfl | hx''
            · exact le_trans hba har
            · exact hmax x (List.mem_cons_of_mem _ hx'')
        · intro x hx
          rcases List.mem_cons.mp hx with rfl | hx'
          · exact hastrict
          · rcases List.mem_cons.mp hx' with rfl | hx''
            · exact lt_of_le_of_lt hba hastrict
            · exact hstrict x (List.mem_cons_of_mem _ hx'')

/-- What `keepBest` keeps: a member of maximal grade, first among ties. -/
theorem keepBest_spec {l : List Course} {c : Course} (h : keepBest l = some c) :
    ∃ l₁ l₂, l = l₁ ++ c :: l₂ ∧ (∀ x ∈ l, x.grade ≤ c.grade)
      ∧ ∀ x ∈ l₁, x.grade < c.grade := by
  cases l with
  | nil => exact Option.noConfusion h
  | cons a rest =>
    simp only [keepBest] at h
    obtain rfl := Option.some.inj h
    exact foldl_betterOf_spec rest a

/-- A key of the dedup map after one insertion is an old key or the
inserted course's name. -/
theorem mem_insertCourse_keys {m : List (String × Course)} {c : Course} {k : String}
    (h : k ∈ (insertCourse m c).map Prod.fst) : k ∈ m.map Prod.fst ∨ k = c.name := by
  induction m with
  | nil =>
    simp only [insertCourse, List.map_cons, List.map_nil, List.mem_singleton] at h
    exact Or.inr h
  | cons p rest ih =>
    obtain ⟨k', e⟩ := p
    simp only [insertCourse] at h
    by_cases hk : k' = c.name
    · rw [if_pos hk] at h
      by_cases hg : e.grade < c.grade
      · rw [if_pos hg] at h
        simp only [List.map_cons, List.mem_cons] at h
        rcases h with rfl | h
        · exact Or.inl (by simp)
        · exact Or.inl (by simp only [List.map_cons, List.mem_cons]; exact Or.inr h)
      · rw [if_neg hg] at h
        simp only [List.map_cons, List.mem_cons] at h
        rcases h with rfl | h
        · exact Or.inl (by simp)
        · exact Or.inl (by simp only [List.map_cons, List.mem_cons]; exact Or.inr h)
    · rw [if_neg hk] at h
      simp only [List.map_cons, List.mem_cons] at h
      rcases h with rfl | h
      · exact Or.inl (by simp)
      · rcases ih h with h' | h'
        · exact Or.inl (by simp only [List.map_cons, List.mem_cons]; exact Or.inr h')
        · exact Or.inr h'

/-- Insertion into the dedup map keeps the keys pairwise distinct. -/
theorem insertCourse_keys_nodup {m : List (String × Course)} {c : Course}
    (h : (m.map Prod.fst).Nodup) : ((insertCourse m c).map Prod.fst).Nodup := by
  induction m with
  | nil => simp [insertCourse]
  | cons p rest ih =>
    obtain ⟨k', e⟩ := p
    simp only [List.map_cons, List.nodup_cons] at h
    obtain ⟨hknotin, hrest⟩ := h
    simp only [insertCourse]
    by_cases hk : k' = c.name
    · rw [if_pos hk]
      by_cases hg : e.grade < c.grade
      · rw [if_pos hg]
        simp only [List.map_cons, List.nodup_cons]
        exact ⟨hknotin, hrest⟩
      · rw [if_neg hg]
        simp only [List.map_cons, List.nodup_cons]
        exact ⟨hknotin, hrest⟩
    · rw [if_neg hk]
      simp only [List.map_cons, List.nodup_cons]
      refine ⟨?_, ih hrest⟩
      intro hmem
      rcases mem_insertCourse_keys hmem with h' | h'
      · exact hknotin h'
      · exact hk h'

/-- The keys of the dedup map are pairwise distinct: a repeated course name
keeps exactly one entry. -/
theorem dedup_keys_nodup (l : List Course) :
    ((dedupCourses l).map Prod.fst).Nodup := by
  suffices hgen : ∀ (l' : List Course) (m : List (String × Course)),
      (m.map Prod.fst).Nodup → ((l'.foldl insertCourse m).map Prod.fst).Nodup by
    exact hgen l [] (by simp)
  intro l'
  induction l' with
  | nil => intro m hm; exact hm
  | cons c rest ih =>
    intro m hm
    rw [List.foldl_cons]
    exact ih _ (insertCourse_keys_nodup hm)

/-- Insertion keeps every entry keyed by its course's name. -/
theorem insertCourse_entry_name :
    ∀ {m : List (String × Course)} {c : Course} {p : String × Course},
      (∀ q ∈ m, q.1 = q.2.name) → p ∈ insertCourse m c → p.1 = p.2.name := by
  intro m
  induction m with
  | nil =>
    intro c p _ hp
    simp only [insertCourse, List.mem_singleton] at hp
    subst hp
    rfl
  | cons q' rest ih =>
    intro c p hall hp
    obtain ⟨k', e⟩ := q'
    simp only [insertCourse] at hp
    by_cases hk : k' = c.name
    · rw [if_pos hk] at hp
      by_cases hg : e.grade < c.grade
      · rw [if_pos hg] at hp
        rcases List.mem_cons.mp hp with rfl | hp'
        · exact hk
        · exact hall p (List.mem_cons_of_mem _ hp')
      · rw [if_neg hg] at hp
        rcases List.mem_cons.mp hp with rfl | hp'
        · exact hall (k', e) (List.mem_cons_self _ _)
        · exact hall p (List.mem_cons_of_mem _ hp')
    · rw [if_neg hk] at hp
      rcases List.mem_cons.mp hp with rfl | hp'
      · exact hall (k', e) (List.mem_cons_self _ _)
      · exact ih (fun q hq => hall q (List.mem_cons_of_mem _ hq)) hp'

/-- Every dedup-map entry is keyed by its course's name. -/
theorem dedup_entry_name (l : List Course) :
    ∀ p ∈ dedupCourses l, p.1 = p.2.name := by
  suffices hgen : ∀ (l' : List Course) (m : List (String × Course)),
      (∀ q ∈ m, q.1 = q.2.name) → ∀ p ∈ l'.foldl insertCourse m, p.1 = p.2.name by
    exact hgen l [] (by simp)
  intro l'
  induction l' with
  | nil => intro m hm; exact hm
  | cons c rest ih =>
    intro m hm
    rw [List.foldl_cons]
    exact ih _ (fun q hq => insertCourse_entry_name hm hq)

/-- C4 (part): the record kept for a name is a same-name input record of
maximal grade, preceded among the same-name attempts only by strictly
smaller grades (so ties keep the first-seen attempt). -/
theorem dedup_lookup_char :
    ∀ (l : List Course) (n : String) (c : Course),
      lookupName n (dedupCourses l) = some c →
        c ∈ l ∧ c.name = n
        ∧ (∀ x ∈ l, x.name = n → x.grade ≤ c.grade)
        ∧ ∃ l₁ l₂, l.filter (fun x => x.name == n) = l₁ ++ c :: l₂
            ∧ ∀ x ∈ l₁, x.grade < c.grade := by
  intro l n c h
  rw [lookupName_dedup] at h
  obtain ⟨l₁, l₂, hsplit, hmax, hstrict⟩ := keepBest_spec h
  have hcf : c ∈ l.filter (fun x => x.name == n) := by
    rw [hsplit]
    exact List.mem_append_right _ (List.mem_cons_self _ _)
  obtain ⟨hcl, hcb⟩ := List.mem_filter.mp hcf
  refine ⟨hcl, by simpa using hcb, ?_, l₁, l₂, hsplit, hstrict⟩
  intro x hx hxn
  exact hmax x (List.mem_filter.mpr ⟨hx, by simp [hxn]⟩)

/-- C4 (part): a name occurring in the input keeps an entry. -/
theorem dedup_lookup_exists :
    ∀ (l : List Course) (n : String), (∃ c ∈ l, c.name = n) →
      ∃ c, lookupName n (dedupCourses l) = some c := by
  intro l n h
  obtain ⟨c, hc, hcn⟩ := h
  rw [lookupName_dedup]
  have hcf : c ∈ l.filter (fun x => x.name == n) :=
    List.mem_filter.mpr ⟨hc, by simp [hcn]⟩
  cases hf : l.filter (fun x => x.name == n) with
  | nil => rw [hf] at hcf; exact absurd hcf (List.not_mem_nil c)
  | cons a rest => exact ⟨rest.foldl betterOf a, rfl⟩

/-- C9: on `[0, 100]` the numeric band table is defined everywhere and is
monotonically non-decreasing. -/
theorem c9_monotone (s1 s2 : ℚ) (h0 : 0 ≤ s1) (h12 : s1 ≤ s2) (h2 : s2 ≤ 100) :
    ∃ g1 g2, gradeBands s1 = some g1 ∧ gradeBands s2 = some g2 ∧ g1 ≤ g2 := by
  refine ⟨_, _, gradeBands_eq_chainEval (le_trans h12 h2), gradeBands_eq_chainEval h2, ?_⟩
  apply chainEval_mono _ _ _ _ h12
  norm_num [thresholdPairs, List.pairwise_cons]

section ConcreteEval

attribute [local semireducible] Rat.ofScientific Rat.mul Rat.inv Rat.add Rat.sub

/-- C1 (counterexample): `"-5"` parses to the negative value `-5`, yet
`score_trans_grade` returns `Some 0.00` rather than `None`. -/
theorem c1_counterexample :
    parseDecimal "-5" = some (-5) ∧ (-5 : ℚ) < 0
      ∧ score_trans_grade "-5" = some 0 := by
  refine ⟨by decide, by norm_num, by decide⟩

/-- C1 (witness): the amended statement applied at `"101"` and `"-5"`. -/
theorem c1_out_of_range_witness :
    score_trans_grade "101" = none ∧ score_trans_grade "-5" = some 0 :=
  ⟨(c1_out_of_range "101" 101 (by decide)).1 (by norm_num),
   (c1_out_of_range "-5" (-5) (by decide)).2 (by norm_num)⟩

/-- C3: the label table takes priority over numeric parsing, and the five
quoted values hold: `"优" ↦ 4.33`, `"不及格" ↦ 0.00`, `"86" ↦ 3.67`,
`"100" ↦ 4.67` (the final band is upper-inclusive at 100), `"" ↦ None`. -/
theorem c3_label_priority :
    (∀ (s : String) (v : ℚ), specLabelTable s = some v → score_trans_grade s = some v)
    ∧ (∀ s : String, specLabelTable s = none →
        score_trans_grade s = (parseDecimal s).bind gradeBands)
    ∧ score_trans_grade "优" = some 4.33
    ∧ score_trans_grade "不及格" = some 0
    ∧ score_trans_grade "86" = some 3.67
    ∧ score_trans_grade "100" = some 4.67
    ∧ score_trans_grade "" = none :=
  ⟨score_label_first.1, score_label_first.2,
   by decide, by decide, by decide, by decide, by decide⟩

/-- C3 (witness): the label-priority part applied at the label `"良"`. -/
theorem c3_witness : score_trans_grade "良" = some 3.33 :=
  c3_label_priority.1 "良" 3.33 (by decide)

/-- C5 (witness): a success-status body embedding the marker is rejected as
`LoginFailed`; a marker-free body succeeds. -/
theorem c5_witness :
    loginOutcome true "ok<a href=/yjlgxy_jsxsd/xk/LoginToXk>x"
        = Except.error WebScrapingError.LoginFailed
      ∧ loginOutcome true "<html>welcome</html>" = Except.ok () :=
  ⟨((c5_login_marker "ok<a href=/yjlgxy_jsxsd/xk/LoginToXk>x").1 (by decide)).1,
   (c5_login_marker "<html>welcome</html>").2 (by decide)⟩

/-- C7 (counterexample): a single surviving course with credit `-1` gives a
nonzero total credit, a claim-side formula value of `4`, but a computed gpa
of `0`: the guard is `total > 0`, not `total ≠ 0`. -/
theorem c7_counterexample :
    (calculate_gpa_from_list [Course.mk "数学" "" "90" (-1) 4 (-4)] GPAMode.All).1 = 0
    ∧ (((calculate_gpa_from_list [Course.mk "数学" "" "90" (-1) 4 (-4)] GPAMode.All).2.map
        (fun c => c.credit)).sum = -1)
    ∧ round_2decimal
        ((((calculate_gpa_from_list [Course.mk "数学" "" "90" (-1) 4 (-4)] GPAMode.All).2.map
          (fun c => c.credit_gpa)).sum) /
        (((calculate_gpa_from_list [Course.mk "数学" "" "90" (-1) 4 (-4)] GPAMode.All).2.map
          (fun c => c.credit)).sum)) = 4 := by
  refine ⟨by decide, by decide, by decide⟩

/-- C7 (witness): the empty course set has zero total credit and gpa `0`. -/
theorem c7_witness : (calculate_gpa_from_list [] GPAMode.All).1 = 0 :=
  (c7_gpa_formula [] GPAMode.All).2 (by decide)

/-- C8 (witness): a regular course surviving Default mode is in the All-mode
result for the same input. -/
theorem c8_witness :
    Course.mk "高等数学" "必修" "92" 4 4.33 17.32 ∈
      (calculate_gpa_from_list [Course.mk "高等数学" "必修" "92" 4 4.33 17.32]
        GPAMode.All).2 :=
  c8_default_subset_all [Course.mk "高等数学" "必修" "92" 4 4.33 17.32]
    (Course.mk "高等数学" "必修" "92" 4 4.33 17.32) (by decide)

/-- C10 (witness): the frame property applied to a one-course input. -/
theorem c10_witness :
    Course.mk "高等数学" "必修" "92" 4 4.33 17.32 ∈
      [Course.mk "高等数学" "必修" "92" 4 4.33 17.32] :=
  (c10_frame [Course.mk "高等数学" "必修" "92" 4 4.33 17.32] ResultSource.InputFile).1
    (Course.mk "高等数学" "必修" "92" 4 4.33 17.32) (by decide)

/-- C9 (witness): monotonicity applied at the concrete scores 70 and 90. -/
theorem c9_witness :
    ∃ g1 g2, gradeBands 70 = some g1 ∧ gradeBands 90 = some g2 ∧ g1 ≤ g2 :=
  c9_monotone 70 90 (by norm_num) (by norm_num) (by norm_num)

/-- C2 (counterexample): a 12-cell row whose name cell is empty and whose
credit cell is the negative `"-3"` is not skipped: it produces a `Course`
with empty name and negative credit. -/
theorem c2_counterexample :
    processRow ["", "", "", "", "85", "", "-3", "", "", "", "", ""] =
      some (Course.mk "" "" "85" (-3) 3.67 (-11.01)) := by decide

/-- C2 (witness): the amended row contract applied to a regular row. -/
theorem c2_row_processing_witness :
    processRow ["", "", "", "语文", "85", "", "3", "", "", "", "", ""] =
      some (Course.mk "语文" "" "85" 3 3.67 (round_2decimal (3.67 * 3))) :=
  (c2_row_processing ["", "", "", "语文", "85", "", "3", "", "", "", "", ""]
    (by decide)).2.2 3 3.67 (by decide) (by decide)

/-- C4: deduplication keeps, per course name, exactly one record (the keys
of the dedup map are distinct and key each record by its name): a same-name
input record of maximal grade, with every earlier same-name attempt of
strictly smaller grade (ties keep the first-seen); any occurring name keeps
a record; and for two attempts with grades 2.00 and 3.33 the 3.33 attempt
survives. -/
theorem c4_dedup_best_attempt :
    (∀ (l : List Course) (n : String) (c : Course),
      lookupName n (dedupCourses l) = some c →
        c ∈ l ∧ c.name = n
        ∧ (∀ x ∈ l, x.name = n → x.grade ≤ c.grade)
        ∧ ∃ l₁ l₂, l.filter (fun x => x.name == n) = l₁ ++ c :: l₂
            ∧ ∀ x ∈ l₁, x.grade < c.grade)
    ∧ (∀ (l : List Course) (n : String), (∃ c ∈ l, c.name = n) →
        ∃ c, lookupName n (dedupCourses l) = some c)
    ∧ (∀ l : List Course, ((dedupCourses l).map Prod.fst).Nodup)
    ∧ (∀ l : List Course, ∀ p ∈ dedupCourses l, p.1 = p.2.name)
    ∧ (dedupCourses [Course.mk "高数" "必修" "70" 3 2.00 6.00,
        Course.mk "高数" "必修" "83" 3 3.33 9.99]).map Prod.snd
      = [Course.mk "高数" "必修" "83" 3 3.33 9.99] :=
  ⟨dedup_lookup_char, dedup_lookup_exists, dedup_keys_nodup, dedup_entry_name,
   by decide⟩

/-- C4 (witness): the existence part applied to the two-attempt input. -/
theorem c4_witness :
    ∃ c, lookupName "高数" (dedupCourses
      [Course.mk "高数" "必修" "70" 3 2.00 6.00,
       Course.mk "高数" "必修" "83" 3 3.33 9.99]) = some c :=
  c4_dedup_best_attempt.2.1
    [Course.mk "高数" "必修" "70" 3 2.00 6.00,
     Course.mk "高数" "必修" "83" 3 3.33 9.99] "高数"
    ⟨Course.mk "高数" "必修" "70" 3 2.00 6.00, by decide, by decide⟩

/-- C6 (witness): the invariant holds for the course extracted from a
concrete one-row grades table. -/
theorem c6_witness : courseInv (Course.mk "语文" "" "85" 3 3.67 11.01) :=
  c6_weighted_point_invariant.1
    [[], ["", "", "", "语文", "85", "", "3", "", "", "", "", ""]]
    (Course.mk "语文" "" "85" 3 3.67 11.01) (by decide)

end ConcreteEval

end Proofs

end YIT
